import Mathlib

/-!
Shallow embedding of `CHECLabPy/spectrum_fitters/gentile.py`.

The module evaluates the expected SiPM charge-spectrum shape (Gentile 2010):
module-level lookup tables (`FACTORIAL`, `FACTORIAL_J_INV`, `BINOM`), a raw
Gaussian density (`_normal_pdf`), the truncated Poisson weights
(`_poisson_pmf_j`), the pedestal component (`pedestal_signal`), the
photo-electron component (`pe_signal`, which internally builds the crosstalk
mixture `pct` and the afterpulse split `p0ap`/`pap1`/`pap2`), and the full
model (`sipm_spe_fit`).  Arrays over the observation grid are modelled
pointwise (one real `x` at a time); the numpy arrays indexed by the fixed
count dimension (length `NPEAKS = 11`) are modelled as functions of the index,
with the index-safety claim treated separately on genuine list versions of the
tables.  Python float arithmetic is modelled by exact real arithmetic;
`np.power` with an integer exponent is modelled by `zpow` (the one divergence
from IEEE semantics, `pow(0, n) = inf` for `n < 0` whereas `(0:ℝ) ^ (n:ℤ) = 0`
for `n < 0`, is flagged where it matters).
-/

namespace Gentile

/-- `C = np.sqrt(2.0 * np.pi)` (gentile.py line 45). -/
noncomputable def C : ℝ := Real.sqrt (2 * Real.pi)

/-- `NPEAKS = 11` (gentile.py line 48): the truncation order `K_max`. -/
def NPEAKS : ℕ := 11

/-- `FACTORIAL = np.array([factorial(i) for i in range(15)])` (line 46).
`math.factorial` is exact integer factorial; the table has length 15. -/
def FACTORIAL : List ℕ := (List.range 15).map Nat.factorial

/-- `scipy.special.binom` at the integer argument pairs the module uses
(`BINOM = binom(N - 1, J - 1)` with `N`, `J` in `0..NPEAKS-1`, so first
argument in `-1..9` and second in `-1..9`).  scipy's documented behaviour at
integer points: for a negative integer first argument the result is NaN; for
a nonnegative integer first argument `n` it is the usual binomial
coefficient, which is exactly `0` when the second argument `k` is a negative
integer or an integer greater than `n`.  NaN has no counterpart in `ℝ`; we
map the NaN row to `0`.  The only NaN entries are in row `n = 0` of `BINOM`,
which `sipm_spe_fit` never reads (it sums `pe_signal` over `k = 1..10`); the
one claim that does look at row `0` is settled using only the fact that the
code's value there is *not* the finite value the claim asserts, which holds
for NaN just as it does for the stand-in `0`. -/
noncomputable def scipyBinom (n k : ℤ) : ℝ :=
  if n < 0 then 0
  else if k < 0 then 0
  else if n < k then 0
  else (Nat.choose n.toNat k.toNat : ℝ)

/-- `BINOM = binom(N - 1, J - 1)` (line 53), an `NPEAKS × NPEAKS` table
indexed by observed count `n` and true count `j`. -/
noncomputable def BINOM (n j : ℕ) : ℝ := scipyBinom ((n : ℤ) - 1) ((j : ℤ) - 1)

/-- `FACTORIAL_J_INV = 1 / FACTORIAL[J]` (line 52): inverse factorials for
`j = 0..NPEAKS-1`, read from the length-15 `FACTORIAL` table. -/
noncomputable def FACTORIAL_J_INV (j : ℕ) : ℝ := 1 / ((FACTORIAL.getD j 0 : ℕ) : ℝ)

/-- `_normal_pdf(x, mean, std_deviation)` (lines 56-74): the raw Gaussian
density `exp(-0.5 * u**2) / (C * std_deviation)` with
`u = (x - mean) / std_deviation`; no input validation. -/
noncomputable def _normal_pdf (x mean std_deviation : ℝ) : ℝ :=
  Real.exp (-0.5 * ((x - mean) / std_deviation) ^ 2) / (C * std_deviation)

/-- `_poisson_pmf_j(mu)[j] = mu ** J * np.exp(-mu) * FACTORIAL_J_INV`
(lines 77-90): the truncated Poisson weights, entry `j`. -/
noncomputable def _poisson_pmf_j (mu : ℝ) (j : ℕ) : ℝ :=
  mu ^ j * Real.exp (-mu) * FACTORIAL_J_INV j

/-- The crosstalk mixture computed inside `pe_signal` (line 166):
`pct = np.sum(pj * np.power(1-opct, J) * np.power(opct, N - J) * BINOM, 1)`,
entry `n`.  The exponent `N - J` can be negative; `np.power` on a float base
is modelled by `zpow` (see the module comment). -/
noncomputable def pct (lambda_ opct : ℝ) (n : ℕ) : ℝ :=
  ∑ j ∈ Finset.range NPEAKS,
    _poisson_pmf_j lambda_ j * (1 - opct) ^ j * opct ^ ((n : ℤ) - (j : ℤ)) *
      BINOM n j

/-- `papk = np.power(1 - pap, N[:, 0])` (line 170), entry `n`. -/
noncomputable def papk (pap : ℝ) (n : ℕ) : ℝ := (1 - pap) ^ n

/-- `p0ap = pct * papk` (line 171): the no-afterpulse weights. -/
noncomputable def p0ap (lambda_ opct pap : ℝ) (n : ℕ) : ℝ :=
  pct lambda_ opct n * papk pap n

/-- `pap1 = pct * (1-papk) * papk` (line 172): the single-afterpulse
weights. -/
noncomputable def pap1 (lambda_ opct pap : ℝ) (n : ℕ) : ℝ :=
  pct lambda_ opct n * (1 - papk pap n) * papk pap n

/-- `pap2 = pct * (1-papk) * (1-papk)` (line 173): the double-afterpulse
weights; computed by `pe_signal` but never used in its result. -/
noncomputable def pap2 (lambda_ opct pap : ℝ) (n : ℕ) : ℝ :=
  pct lambda_ opct n * (1 - papk pap n) * (1 - papk pap n)

/-- `pe_signal(k, x, norm, eped, eped_sigma, spe, spe_sigma, lambda_, opct,
pap, dap)` (lines 121-182) for one count `k` and one grid point `x`:
`sap = spe_sigma`; `pe_sigma = sqrt(k * spe_sigma**2 + eped_sigma**2)`;
`ap_sigma = sqrt(k * sap**2 + eped_sigma**2)`;
`signal = p0ap[k]*pdf(x, eped + k*spe, pe_sigma)
        + pap1[k]*pdf(x, eped + k*spe*(1-dap), ap_sigma)`, times `norm`.
The dead binding `_pap2k` mirrors source line 173, which computes the
double-afterpulse mass without consuming it. -/
noncomputable def pe_signal (k : ℕ)
    (x norm eped eped_sigma spe spe_sigma lambda_ opct pap dap : ℝ) : ℝ :=
  let sap := spe_sigma
  let _pap2k := pap2 lambda_ opct pap k
  let pe_sigma := Real.sqrt ((k : ℝ) * spe_sigma ^ 2 + eped_sigma ^ 2)
  let ap_sigma := Real.sqrt ((k : ℝ) * sap ^ 2 + eped_sigma ^ 2)
  (p0ap lambda_ opct pap k * _normal_pdf x (eped + (k : ℝ) * spe) pe_sigma
    + pap1 lambda_ opct pap k *
        _normal_pdf x (eped + (k : ℝ) * spe * (1 - dap)) ap_sigma) * norm

/-- `pe_signal` with source line 173 (the dead double-afterpulse computation)
deleted; used to state that removing that branch leaves the model output
unchanged. -/
noncomputable def pe_signal_noDouble (k : ℕ)
    (x norm eped eped_sigma spe spe_sigma lambda_ opct pap dap : ℝ) : ℝ :=
  let sap := spe_sigma
  let pe_sigma := Real.sqrt ((k : ℝ) * spe_sigma ^ 2 + eped_sigma ^ 2)
  let ap_sigma := Real.sqrt ((k : ℝ) * sap ^ 2 + eped_sigma ^ 2)
  (p0ap lambda_ opct pap k * _normal_pdf x (eped + (k : ℝ) * spe) pe_sigma
    + pap1 lambda_ opct pap k *
        _normal_pdf x (eped + (k : ℝ) * spe * (1 - dap)) ap_sigma) * norm

/-- `pedestal_signal(x, norm, eped, eped_sigma, lambda_)` (lines 93-118):
`norm * exp(-lambda_) * _normal_pdf(x, eped, eped_sigma)`. -/
noncomputable def pedestal_signal (x norm eped eped_sigma lambda_ : ℝ) : ℝ :=
  norm * Real.exp (-lambda_) * _normal_pdf x eped eped_sigma

/-- `sipm_spe_fit(x, norm, eped, eped_sigma, spe, spe_sigma, lambda_, opct,
pap, dap)` (lines 185-230): `pedestal_signal(x, ...)` plus
`pe_signal(K, x[None, :], ...).sum(0)` with `K = np.arange(1, NPEAKS)`
(line 51), i.e. the sum over `k = 1..NPEAKS-1`, at one grid point `x`. -/
noncomputable def sipm_spe_fit
    (x norm eped eped_sigma spe spe_sigma lambda_ opct pap dap : ℝ) : ℝ :=
  pedestal_signal x norm eped eped_sigma lambda_
    + ∑ k ∈ Finset.Ico 1 NPEAKS,
        pe_signal k x norm eped eped_sigma spe spe_sigma lambda_ opct pap dap

/-- `np.trapz(y, x)`: the trapezoidal-rule integral
`Σ (x[i+1]-x[i]) * (y[i]+y[i+1]) / 2` over consecutive points. -/
noncomputable def trapz : List ℝ → List ℝ → ℝ
  | y0 :: y1 :: ys, x0 :: x1 :: xs =>
      (x1 - x0) * (y0 + y1) / 2 + trapz (y1 :: ys) (x1 :: xs)
  | _, _ => 0

/-- `GentileFitter.prepare_params` (lines 34-38): for each illumination
`i < n_illuminations`, if the normalization default `p0[norm{i}]` is `None`
it is set to `np.trapz(self.hist[i], self.between)`; otherwise it is left
unchanged.  The per-illumination defaults are modelled as
`p0 : ℕ → Option ℝ` (`none` = Python `None`), the histograms and bin-center
grid as explicit inputs (they come from the fitter base class, outside this
module). -/
noncomputable def prepare_params (n_illuminations : ℕ) (hist : ℕ → List ℝ)
    (between : List ℝ) (p0 : ℕ → Option ℝ) : ℕ → Option ℝ :=
  fun i =>
    if i < n_illuminations then
      match p0 i with
      | none => some (trapz (hist i) between)
      | some v => some v
    else p0 i

/-- The binomial-coefficient convention asserted by the spec for the
crosstalk mixture: `C(n-1, j-1)` is zero whenever its arguments leave the
valid domain, *except* that the `j = 0` term is said to contribute (exactly)
to `n = 0`, i.e. the spec reads `C(-1, -1)` as `1`.  This definition follows
the spec's words; it is compared against the source table `BINOM`. -/
noncomputable def claimBinom (n j : ℕ) : ℝ :=
  if n = 0 ∧ j = 0 then 1
  else if 1 ≤ j ∧ j ≤ n then (Nat.choose (n - 1) (j - 1) : ℝ)
  else 0

/-- The `NPEAKS × NPEAKS` table `BINOM` as a genuine list-of-rows array
(numpy array of shape (11, 11)), for the index-safety claim. -/
noncomputable def BINOMtable : List (List ℝ) :=
  (List.range NPEAKS).map fun n => (List.range NPEAKS).map fun j => BINOM n j

/-- The length-`NPEAKS` vector `p0ap` as a genuine list, for the
index-safety claim. -/
noncomputable def p0apVec (lambda_ opct pap : ℝ) : List ℝ :=
  (List.range NPEAKS).map (p0ap lambda_ opct pap)

/-- The length-`NPEAKS` vector `pap1` as a genuine list, for the
index-safety claim. -/
noncomputable def pap1Vec (lambda_ opct pap : ℝ) : List ℝ :=
  (List.range NPEAKS).map (pap1 lambda_ opct pap)

/-! ## Helper lemmas -/

/-- Row `0` of the `BINOM` table: every entry is `scipyBinom (-1) (j-1)`,
NaN in scipy, the stand-in `0` here. -/
theorem BINOM_row_zero (j : ℕ) : BINOM 0 j = 0 := by
  unfold BINOM scipyBinom
  norm_num

/-- On rows `n ≥ 1` the source table `BINOM` agrees entry by entry with the
spec's binomial convention `claimBinom`. -/
theorem BINOM_eq_claimBinom (n j : ℕ) (hn : 1 ≤ n) :
    BINOM n j = claimBinom n j := by
  unfold BINOM scipyBinom claimBinom
  have ht1 : (((n : ℤ) - 1)).toNat = n - 1 := by omega
  have ht2 : (((j : ℤ) - 1)).toNat = j - 1 := by omega
  rw [ht1, ht2]
  split_ifs <;> first | rfl | (exfalso; omega)

/-- `BINOM n n = 1` for `n ≥ 1` (diagonal of the table, `C(n-1, n-1)`). -/
theorem BINOM_diag (n : ℕ) (hn : 1 ≤ n) : BINOM n n = 1 := by
  unfold BINOM scipyBinom
  split_ifs with h1 h2
  · exfalso; omega
  · exfalso; omega
  · simp [Nat.choose_self]

/-- `BINOM n j = 0` when `1 ≤ n < j` (upper triangle, `C(n-1, j-1)` with
`n-1 < j-1`). -/
theorem BINOM_upper (n j : ℕ) (hn : 1 ≤ n) (hnj : n < j) : BINOM n j = 0 := by
  unfold BINOM scipyBinom
  rw [if_neg (by omega), if_neg (by omega), if_pos (by omega)]

/-- The `BINOM` table entries are non-negative. -/
theorem BINOM_nonneg (n j : ℕ) : 0 ≤ BINOM n j := by
  unfold BINOM scipyBinom
  split_ifs <;> first | exact le_refl 0 | exact Nat.cast_nonneg _

/-- The truncated Poisson weights are non-negative for `mu ≥ 0`. -/
theorem _poisson_pmf_j_nonneg (mu : ℝ) (hmu : 0 ≤ mu) (j : ℕ) :
    0 ≤ _poisson_pmf_j mu j := by
  unfold _poisson_pmf_j FACTORIAL_J_INV
  have h1 : (0:ℝ) ≤ 1 / ((FACTORIAL.getD j 0 : ℕ) : ℝ) := by positivity
  exact mul_nonneg (mul_nonneg (pow_nonneg hmu j) (Real.exp_pos _).le) h1

/-- The crosstalk-mixture entries are non-negative when `lambda_ ≥ 0` and
`opct ∈ [0,1]`. -/
theorem pct_nonneg (lambda_ opct : ℝ) (hl : 0 ≤ lambda_) (ho0 : 0 ≤ opct)
    (ho1 : opct ≤ 1) (n : ℕ) : 0 ≤ pct lambda_ opct n := by
  unfold pct
  refine Finset.sum_nonneg fun j _ => ?_
  have h1 := _poisson_pmf_j_nonneg lambda_ hl j
  have h2 : (0:ℝ) ≤ (1 - opct) ^ j := pow_nonneg (by linarith) j
  have h3 : (0:ℝ) ≤ opct ^ ((n : ℤ) - (j : ℤ)) := zpow_nonneg ho0 _
  exact mul_nonneg (mul_nonneg (mul_nonneg h1 h2) h3) (BINOM_nonneg n j)

/-- With no crosstalk (`opct = 0`) the mixture at count `n = 1..K_max-1` is
the Poisson weight itself: the only surviving term of the binomial sum is
`j = n` (for `j < n` the factor `0^(n-j)` vanishes, for `j > n` the table
entry `C(n-1, j-1)` is `0`, and at `j = n` both `0^0` and `C(n-1, n-1)` are
`1`).  Modelling note: for `j > n` numpy evaluates `0.0 ** (n-j)` to `inf`
(IEEE `pow`), which the zero table entry then turns into `inf * 0 = NaN`; the
real-number model uses the `zpow` junk value `0 ^ (negative) = 0` instead,
so this reduction holds exactly at `opct = 0` in the model while the Python
code only satisfies it in the limit `opct → 0+` (the fitter bounds `opct`
to `[0.01, 0.8]`, so the code is never run at `opct = 0`). -/
theorem pct_opct_zero (lambda_ : ℝ) (n : ℕ) (hn1 : 1 ≤ n) (hn : n < NPEAKS) :
    pct lambda_ 0 n = _poisson_pmf_j lambda_ n := by
  unfold pct
  rw [Finset.sum_eq_single n]
  · rw [sub_zero, one_pow, sub_self, zpow_zero, BINOM_diag n hn1]
    ring
  · intro j _ hjn
    have h0 : (0:ℝ) ^ ((n : ℤ) - (j : ℤ)) = 0 := zero_zpow _ (by omega)
    rw [h0]
    ring
  · intro hn2
    exact absurd (Finset.mem_range.mpr hn) hn2

/-- With zero illumination (`lambda_ = 0`) the crosstalk mixture vanishes at
every count `n ≥ 1`, for any crosstalk probability: the `j = 0` term carries
the table entry `C(n-1, -1) = 0` and every `j ≥ 1` term carries the Poisson
factor `0^j = 0`. -/
theorem pct_lambda_zero (opct : ℝ) (n : ℕ) (hn : 1 ≤ n) :
    pct 0 opct n = 0 := by
  unfold pct
  refine Finset.sum_eq_zero fun j _ => ?_
  rcases Nat.eq_zero_or_pos j with hj | hj
  · subst hj
    have hb : BINOM n 0 = 0 := by
      unfold BINOM scipyBinom
      rw [if_neg (by omega), if_pos (by omega)]
    rw [hb, mul_zero]
  · have hpmf : _poisson_pmf_j 0 j = 0 := by
      unfold _poisson_pmf_j
      rw [zero_pow (by omega), zero_mul, zero_mul]
    rw [hpmf, zero_mul, zero_mul, zero_mul]

/-- The Gaussian density is non-negative whenever the spread is
non-negative. -/
theorem _normal_pdf_nonneg (x mean sd : ℝ) (hsd : 0 ≤ sd) :
    0 ≤ _normal_pdf x mean sd := by
  unfold _normal_pdf C
  exact div_nonneg (Real.exp_pos _).le
    (mul_nonneg (Real.sqrt_nonneg _) hsd)

/-- `papk` is non-negative for `pap ≤ 1`. -/
theorem papk_nonneg (pap : ℝ) (h1 : pap ≤ 1) (n : ℕ) : 0 ≤ papk pap n :=
  pow_nonneg (by linarith) n

/-- `papk` is at most `1` for `pap ∈ [0,1]`. -/
theorem papk_le_one (pap : ℝ) (h0 : 0 ≤ pap) (h1 : pap ≤ 1) (n : ℕ) :
    papk pap n ≤ 1 :=
  pow_le_one₀ (by linarith) (by linarith)

/-- The no-afterpulse weights are non-negative on the claimed parameter
box. -/
theorem p0ap_nonneg (lambda_ opct pap : ℝ) (hl : 0 ≤ lambda_)
    (ho0 : 0 ≤ opct) (ho1 : opct ≤ 1) (hp1 : pap ≤ 1) (n : ℕ) :
    0 ≤ p0ap lambda_ opct pap n :=
  mul_nonneg (pct_nonneg lambda_ opct hl ho0 ho1 n) (papk_nonneg pap hp1 n)

/-- The single-afterpulse weights are non-negative on the claimed parameter
box. -/
theorem pap1_nonneg (lambda_ opct pap : ℝ) (hl : 0 ≤ lambda_)
    (ho0 : 0 ≤ opct) (ho1 : opct ≤ 1) (hp0 : 0 ≤ pap) (hp1 : pap ≤ 1)
    (n : ℕ) : 0 ≤ pap1 lambda_ opct pap n := by
  unfold pap1
  have h1 : 0 ≤ 1 - papk pap n := by
    linarith [papk_le_one pap hp0 hp1 n]
  exact mul_nonneg
    (mul_nonneg (pct_nonneg lambda_ opct hl ho0 ho1 n) h1)
    (papk_nonneg pap hp1 n)

/-- Each per-count contribution `pe_signal k` is non-negative on the claimed
parameter box. -/
theorem pe_signal_nonneg (k : ℕ)
    (x norm eped eped_sigma spe spe_sigma lambda_ opct pap dap : ℝ)
    (ho0 : 0 ≤ opct) (ho1 : opct ≤ 1) (hp0 : 0 ≤ pap) (hp1 : pap ≤ 1)
    (hnorm : 0 ≤ norm) (hl : 0 ≤ lambda_) :
    0 ≤ pe_signal k x norm eped eped_sigma spe spe_sigma lambda_ opct pap
          dap := by
  unfold pe_signal
  have h1 := p0ap_nonneg lambda_ opct pap hl ho0 ho1 hp1 k
  have h2 := pap1_nonneg lambda_ opct pap hl ho0 ho1 hp0 hp1 k
  have h3 := _normal_pdf_nonneg x (eped + (k : ℝ) * spe)
    (Real.sqrt ((k : ℝ) * spe_sigma ^ 2 + eped_sigma ^ 2))
    (Real.sqrt_nonneg _)
  have h4 := _normal_pdf_nonneg x (eped + (k : ℝ) * spe * (1 - dap))
    (Real.sqrt ((k : ℝ) * spe_sigma ^ 2 + eped_sigma ^ 2))
    (Real.sqrt_nonneg _)
  exact mul_nonneg (add_nonneg (mul_nonneg h1 h3) (mul_nonneg h2 h4)) hnorm

/-! ## Claim theorems -/

/-- C1: for every grid point `x` and every parameter setting, the model
evaluation `sipm_spe_fit` equals the pedestal component plus the sum of the
per-`k` photo-electron contributions `pe_signal k` over
`k = 1..K_max-1 = 1..10`. -/
theorem sipm_spe_fit_decomposition
    (x norm eped eped_sigma spe spe_sigma lambda_ opct pap dap : ℝ) :
    sipm_spe_fit x norm eped eped_sigma spe spe_sigma lambda_ opct pap dap
      = pedestal_signal x norm eped eped_sigma lambda_
        + ∑ k ∈ Finset.Ico 1 11,
            pe_signal k x norm eped eped_sigma spe spe_sigma lambda_ opct pap
              dap := rfl

/-- C2 (amended): for every Poisson weight vector and crosstalk probability
`p ∈ [0,1]`, the crosstalk-mixture entry at each observed count
`n = 1..K_max-1` equals the claimed sum
`Σ_j weights[j] · (1-p)^j · p^(n-j) · C(n-1, j-1)` with the out-of-domain
binomial coefficients taken to be zero.  (At `n = 0` the claim fails: the
code reads row `0` of `BINOM`, built from `scipy.special.binom(-1, j-1)`,
which is not the claimed coefficient row.) -/
theorem crosstalk_mixture_matches_claim (lambda_ p : ℝ)
    (hp0 : 0 ≤ p) (hp1 : p ≤ 1) (n : ℕ) (hn1 : 1 ≤ n) (hn : n < NPEAKS) :
    pct lambda_ p n
      = ∑ j ∈ Finset.range NPEAKS,
          _poisson_pmf_j lambda_ j * (1 - p) ^ j * p ^ ((n : ℤ) - (j : ℤ)) *
            claimBinom n j := by
  unfold pct
  refine Finset.sum_congr rfl fun j _ => ?_
  rw [BINOM_eq_claimBinom n j hn1]

/-- C2 witness: the amended statement at `lambda_ = 0`, `p = 1/2`,
`n = 1`. -/
theorem crosstalk_mixture_matches_claim_witness :
    pct 0 (1/2) 1
      = ∑ j ∈ Finset.range NPEAKS,
          _poisson_pmf_j 0 j * (1 - 1/2) ^ j *
            (1/2 : ℝ) ^ ((1 : ℤ) - (j : ℤ)) * claimBinom 1 j :=
  crosstalk_mixture_matches_claim 0 (1/2) (by norm_num) (by norm_num) 1
    le_rfl (by norm_num [NPEAKS])

/-- C2 counterexample: at observed count `n = 0` the claimed formula fails.
With `lambda_ = 0` and `p = 1/2` the claimed sum is `1` (only the `j = 0`
term survives and the spec reads `C(-1,-1)` as `1`), while the code's
mixture entry is built from scipy's `binom(-1, j-1)` row — NaN in the
source, the stand-in `0` here — and in particular is not `1`. -/
theorem crosstalk_mixture_claim_fails_at_n_zero :
    ¬ (pct 0 (1/2) 0
        = ∑ j ∈ Finset.range NPEAKS,
            _poisson_pmf_j 0 j * (1 - 1/2) ^ j *
              (1/2 : ℝ) ^ ((0 : ℤ) - (j : ℤ)) * claimBinom 0 j) := by
  have hL : pct 0 (1/2) 0 = 0 := by
    unfold pct
    refine Finset.sum_eq_zero fun j _ => ?_
    rw [BINOM_row_zero, mul_zero]
  have hR : (∑ j ∈ Finset.range NPEAKS,
      _poisson_pmf_j 0 j * (1 - 1/2) ^ j *
        (1/2 : ℝ) ^ ((0 : ℤ) - (j : ℤ)) * claimBinom 0 j) = 1 := by
    rw [Finset.sum_eq_single 0]
    · have h0 : _poisson_pmf_j 0 0 = 1 := by
        have hf : (FACTORIAL.getD 0 0 : ℕ) = 1 := rfl
        unfold _poisson_pmf_j FACTORIAL_J_INV
        rw [hf]
        norm_num
      rw [h0]
      have hcb : claimBinom 0 0 = 1 := by unfold claimBinom; norm_num
      rw [hcb]
      norm_num
    · intro j _ hj0
      have hpmf : _poisson_pmf_j 0 j = 0 := by
        unfold _poisson_pmf_j
        rw [zero_pow hj0, zero_mul, zero_mul]
      rw [hpmf, zero_mul, zero_mul, zero_mul]
    · intro h
      exact absurd (Finset.mem_range.mpr (by norm_num [NPEAKS])) h
  rw [hL, hR]
  norm_num

/-- C5: the afterpulse split computed by `pe_signal` satisfies, at every
count `n` and for every crosstalk mixture (the observed-count vector) and
afterpulse probability `pap ∈ [0,1]`:
`no_ap[n] = observed[n]·(1-pap)^n`,
`single_ap[n] = observed[n]·(1-(1-pap)^n)·(1-pap)^n`,
`double_ap[n] = observed[n]·(1-(1-pap)^n)^2`. -/
theorem afterpulse_split_formulas (lambda_ opct pap : ℝ) (n : ℕ)
    (h0 : 0 ≤ pap) (h1 : pap ≤ 1) :
    p0ap lambda_ opct pap n = pct lambda_ opct n * (1 - pap) ^ n
    ∧ pap1 lambda_ opct pap n
        = pct lambda_ opct n * (1 - (1 - pap) ^ n) * (1 - pap) ^ n
    ∧ pap2 lambda_ opct pap n
        = pct lambda_ opct n * (1 - (1 - pap) ^ n) ^ 2 := by
  refine ⟨rfl, rfl, ?_⟩
  unfold pap2 papk
  ring

/-- C5 witness: the split formulas at `lambda_ = 1`, `opct = 0`,
`pap = 1/2`, `n = 2`. -/
theorem afterpulse_split_formulas_witness :
    p0ap 1 0 (1/2) 2 = pct 1 0 2 * (1 - 1/2) ^ 2
    ∧ pap1 1 0 (1/2) 2 = pct 1 0 2 * (1 - (1 - 1/2) ^ 2) * (1 - 1/2) ^ 2
    ∧ pap2 1 0 (1/2) 2 = pct 1 0 2 * (1 - (1 - 1/2) ^ 2) ^ 2 :=
  afterpulse_split_formulas 1 0 (1/2) 2 (by norm_num) (by norm_num)

/-- C7: for every count `k = 1..K_max-1`, the afterpulse Gaussian in
`pe_signal` uses the spread `sqrt(k·spe_sigma² + eped_sigma²)` — the same
expression as the primary peak, since `sap` is an alias for `spe_sigma` —
and the mean `eped + k·spe·(1-dap)`, while the primary Gaussian has mean
`eped + k·spe`. -/
theorem afterpulse_gaussian_params (k : ℕ) (hk1 : 1 ≤ k) (hk : k < NPEAKS)
    (x norm eped eped_sigma spe spe_sigma lambda_ opct pap dap : ℝ) :
    pe_signal k x norm eped eped_sigma spe spe_sigma lambda_ opct pap dap
      = (p0ap lambda_ opct pap k
            * _normal_pdf x (eped + (k : ℝ) * spe)
                (Real.sqrt ((k : ℝ) * spe_sigma ^ 2 + eped_sigma ^ 2))
          + pap1 lambda_ opct pap k
            * _normal_pdf x (eped + (k : ℝ) * spe * (1 - dap))
                (Real.sqrt ((k : ℝ) * spe_sigma ^ 2 + eped_sigma ^ 2)))
          * norm := rfl

/-- C7 witness: the Gaussian-parameter identity at `k = 1` and concrete
parameters. -/
theorem afterpulse_gaussian_params_witness :
    pe_signal 1 0 1 0 1 1 1 1 0 0 0
      = (p0ap 1 0 0 1
            * _normal_pdf 0 (0 + ((1 : ℕ) : ℝ) * 1)
                (Real.sqrt (((1 : ℕ) : ℝ) * 1 ^ 2 + 1 ^ 2))
          + pap1 1 0 0 1
            * _normal_pdf 0 (0 + ((1 : ℕ) : ℝ) * 1 * (1 - 0))
                (Real.sqrt (((1 : ℕ) : ℝ) * 1 ^ 2 + 1 ^ 2))) * 1 :=
  afterpulse_gaussian_params 1 le_rfl (by norm_num [NPEAKS]) 0 1 0 1 1 1 1 0
    0 0

/-- C8: the pedestal component equals
`norm · e^(-lambda_) · density(x, eped, eped_sigma)`, and at
`norm = 1, eped = 0, eped_sigma = 1, lambda_ = 0` it is the standard normal
density `e^(-x²/2) / sqrt(2π)`. -/
theorem pedestal_formula (x norm eped eped_sigma lambda_ : ℝ)
    (hs : 0 < eped_sigma) (hl : 0 ≤ lambda_) :
    pedestal_signal x norm eped eped_sigma lambda_
        = norm * Real.exp (-lambda_) * _normal_pdf x eped eped_sigma
    ∧ pedestal_signal x 1 0 1 0
        = Real.exp (-(x ^ 2 / 2)) / Real.sqrt (2 * Real.pi) := by
  refine ⟨rfl, ?_⟩
  unfold pedestal_signal _normal_pdf C
  rw [neg_zero, Real.exp_zero, sub_zero, div_one, mul_one]
  rw [show -0.5 * x ^ 2 = -(x ^ 2 / 2) from by ring]
  ring

/-- C8 witness: the pedestal formulas at `x = 0`, `norm = 1`, `eped = 0`,
`eped_sigma = 1`, `lambda_ = 0`. -/
theorem pedestal_formula_witness :
    pedestal_signal 0 1 0 1 0
        = 1 * Real.exp (-0) * _normal_pdf 0 0 1
    ∧ pedestal_signal 0 1 0 1 0
        = Real.exp (-((0 : ℝ) ^ 2 / 2)) / Real.sqrt (2 * Real.pi) :=
  pedestal_formula 0 1 0 1 0 one_pos le_rfl

/-- C3: with `opct = 0` and `pap = 0` the summed photo-electron component
reduces exactly to
`norm · Σ_k PoissonWeights(lambda_)[k] · density(x, eped + k·spe,
sqrt(k·spe_sigma² + eped_sigma²))` over `k = 1..K_max-1`.  (See
`pct_opct_zero` for the `zpow` modelling note about the exact point
`opct = 0`.) -/
theorem pe_sum_reduces_no_crosstalk_no_afterpulse
    (x norm eped eped_sigma spe spe_sigma lambda_ dap : ℝ)
    (hes : 0 < eped_sigma) (hss : 0 < spe_sigma) (hl : 0 ≤ lambda_) :
    (∑ k ∈ Finset.Ico 1 NPEAKS,
        pe_signal k x norm eped eped_sigma spe spe_sigma lambda_ 0 0 dap)
      = norm * ∑ k ∈ Finset.Ico 1 NPEAKS,
          _poisson_pmf_j lambda_ k *
            _normal_pdf x (eped + (k : ℝ) * spe)
              (Real.sqrt ((k : ℝ) * spe_sigma ^ 2 + eped_sigma ^ 2)) := by
  rw [Finset.mul_sum]
  refine Finset.sum_congr rfl fun k hk => ?_
  obtain ⟨hk1, hk2⟩ := Finset.mem_Ico.mp hk
  simp only [pe_signal, p0ap, pap1, papk]
  rw [pct_opct_zero lambda_ k hk1 hk2]
  simp only [sub_zero, one_pow]
  ring

/-- C3 witness: the no-crosstalk, no-afterpulse reduction at concrete
parameters `x = 0`, `norm = 1`, `eped = 0`, `eped_sigma = 1`, `spe = 1`,
`spe_sigma = 1`, `lambda_ = 1`, `dap = 0`. -/
theorem pe_sum_reduces_no_crosstalk_no_afterpulse_witness :
    (∑ k ∈ Finset.Ico 1 NPEAKS, pe_signal k 0 1 0 1 1 1 1 0 0 0)
      = 1 * ∑ k ∈ Finset.Ico 1 NPEAKS,
          _poisson_pmf_j 1 k *
            _normal_pdf 0 (0 + (k : ℝ) * 1)
              (Real.sqrt ((k : ℝ) * 1 ^ 2 + 1 ^ 2)) :=
  pe_sum_reduces_no_crosstalk_no_afterpulse 0 1 0 1 1 1 1 0 one_pos one_pos
    zero_le_one

/-- C4: every entry of the model output is non-negative whenever
`opct ∈ [0,1]`, `pap ∈ [0,1]`, the spreads are positive, `norm ≥ 0` and
`lambda_ ≥ 0`. -/
theorem sipm_spe_fit_nonneg
    (x norm eped eped_sigma spe spe_sigma lambda_ opct pap dap : ℝ)
    (ho0 : 0 ≤ opct) (ho1 : opct ≤ 1) (hp0 : 0 ≤ pap) (hp1 : pap ≤ 1)
    (hes : 0 < eped_sigma) (hss : 0 < spe_sigma) (hnorm : 0 ≤ norm)
    (hl : 0 ≤ lambda_) :
    0 ≤ sipm_spe_fit x norm eped eped_sigma spe spe_sigma lambda_ opct pap
          dap := by
  unfold sipm_spe_fit
  refine add_nonneg ?_ (Finset.sum_nonneg fun k _ =>
    pe_signal_nonneg k x norm eped eped_sigma spe spe_sigma lambda_ opct pap
      dap ho0 ho1 hp0 hp1 hnorm hl)
  unfold pedestal_signal
  exact mul_nonneg (mul_nonneg hnorm (Real.exp_pos _).le)
    (_normal_pdf_nonneg x eped eped_sigma hes.le)

/-- C4 witness: non-negativity at `x = 0`, `norm = 1`, `eped = 0`,
`eped_sigma = 1`, `spe = 1`, `spe_sigma = 1`, `lambda_ = 1`, `opct = 1/2`,
`pap = 1/2`, `dap = 0`. -/
theorem sipm_spe_fit_nonneg_witness :
    0 ≤ sipm_spe_fit 0 1 0 1 1 1 1 (1/2) (1/2) 0 :=
  sipm_spe_fit_nonneg 0 1 0 1 1 1 1 (1/2) (1/2) 0 (by norm_num)
    (by norm_num) (by norm_num) (by norm_num) one_pos one_pos zero_le_one
    zero_le_one

/-- C6 counterexample: the claimed strict mass deficit under `pap > 0`
alone is false.  At `lambda_ = 0`, `opct = 1/2`, `pap = 1/2` (so `pap > 0`
holds), the crosstalk mixture vanishes on every count `k = 1..K_max-1` —
in the code exactly as in the model, since the `j = 0` term carries
`binom(k-1, -1) = 0` and the `j ≥ 1` terms carry `0.0 ** j = 0` — so the
mass folded into the curve and the crosstalk-mixture mass are both `0` and
neither is strictly less than the other. -/
theorem double_afterpulse_mass_claim_fails_at_lambda_zero :
    (∑ k ∈ Finset.Ico 1 NPEAKS,
        (p0ap 0 (1/2) (1/2) k + pap1 0 (1/2) (1/2) k)) = 0
    ∧ (∑ k ∈ Finset.Ico 1 NPEAKS, pct 0 (1/2) k) = 0
    ∧ ¬ (∑ k ∈ Finset.Ico 1 NPEAKS,
          (p0ap 0 (1/2) (1/2) k + pap1 0 (1/2) (1/2) k)
        < ∑ k ∈ Finset.Ico 1 NPEAKS, pct 0 (1/2) k) := by
  have h1 : (∑ k ∈ Finset.Ico 1 NPEAKS,
      (p0ap 0 (1/2) (1/2) k + pap1 0 (1/2) (1/2) k)) = 0 := by
    refine Finset.sum_eq_zero fun k hk => ?_
    obtain ⟨hk1, _⟩ := Finset.mem_Ico.mp hk
    unfold p0ap pap1
    rw [pct_lambda_zero (1/2) k hk1]
    ring
  have h2 : (∑ k ∈ Finset.Ico 1 NPEAKS, pct 0 (1/2) k) = 0 :=
    Finset.sum_eq_zero fun k hk =>
      pct_lambda_zero (1/2) k (Finset.mem_Ico.mp hk).1
  refine ⟨h1, h2, ?_⟩
  rw [h1, h2]
  exact lt_irrefl 0

/-- C6 (amended): for every input, the model output is unchanged when the
double-afterpulse branch (source line 173) is removed — it only consumes
the no-afterpulse and single-afterpulse weights; and when `pap > 0`,
`lambda_ > 0` and `opct ∈ [0,1)`, the total weight folded into the
photo-electron component over `k = 1..K_max-1` is strictly less than the
crosstalk-mixture mass over the same counts.  (The positivity side
conditions are forced: at `lambda_ = 0` both masses vanish, so the deficit
is not strict under `pap > 0` alone.) -/
theorem double_afterpulse_refinement
    (x norm eped eped_sigma spe spe_sigma lambda_ opct pap dap : ℝ) :
    (sipm_spe_fit x norm eped eped_sigma spe spe_sigma lambda_ opct pap dap
      = pedestal_signal x norm eped eped_sigma lambda_
        + ∑ k ∈ Finset.Ico 1 NPEAKS,
            pe_signal_noDouble k x norm eped eped_sigma spe spe_sigma
              lambda_ opct pap dap)
    ∧ (0 < pap → 0 ≤ opct → opct < 1 → 0 < lambda_ →
        ∑ k ∈ Finset.Ico 1 NPEAKS,
            (p0ap lambda_ opct pap k + pap1 lambda_ opct pap k)
          < ∑ k ∈ Finset.Ico 1 NPEAKS, pct lambda_ opct k) := by
  constructor
  · rfl
  · intro hpap0 hopct0 hopct1 hl
    have hle : ∀ k ∈ Finset.Ico 1 NPEAKS,
        p0ap lambda_ opct pap k + pap1 lambda_ opct pap k
          ≤ pct lambda_ opct k := by
      intro k _
      have hpct := pct_nonneg lambda_ opct hl.le hopct0 hopct1.le k
      unfold p0ap pap1
      nlinarith [mul_nonneg hpct (sq_nonneg (1 - papk pap k))]
    have hpct1 : 0 < pct lambda_ opct 1 := by
      unfold pct
      refine Finset.sum_pos' (fun j _ => ?_) ⟨1, ?_, ?_⟩
      · have h1 := _poisson_pmf_j_nonneg lambda_ hl.le j
        have h2 : (0:ℝ) ≤ (1 - opct) ^ j := pow_nonneg (by linarith) j
        have h3 : (0:ℝ) ≤ opct ^ ((1 : ℤ) - (j : ℤ)) := zpow_nonneg hopct0 _
        exact mul_nonneg (mul_nonneg (mul_nonneg h1 h2) h3) (BINOM_nonneg 1 j)
      · exact Finset.mem_range.mpr (by norm_num [NPEAKS])
      · rw [sub_self, zpow_zero, BINOM_diag 1 le_rfl]
        have hpmf : 0 < _poisson_pmf_j lambda_ 1 := by
          unfold _poisson_pmf_j FACTORIAL_J_INV
          have hf : (FACTORIAL.getD 1 0 : ℕ) = 1 := rfl
          rw [hf]
          have := Real.exp_pos (-lambda_)
          positivity
        have hop : (0:ℝ) < (1 - opct) ^ 1 := by
          rw [pow_one]; linarith
        positivity
    refine Finset.sum_lt_sum hle ⟨1, Finset.mem_Ico.mpr ⟨le_rfl, by
      norm_num [NPEAKS]⟩, ?_⟩
    unfold p0ap pap1 papk
    rw [pow_one]
    nlinarith [mul_pos hpct1 (mul_pos hpap0 hpap0)]

/-- C6 witness: the amended double-afterpulse facts at `x = 0`, `norm = 1`,
`eped = 0`, `eped_sigma = 1`, `spe = 1`, `spe_sigma = 1`, `lambda_ = 1`,
`opct = 1/2`, `pap = 1/2`, `dap = 0`. -/
theorem double_afterpulse_refinement_witness :
    sipm_spe_fit 0 1 0 1 1 1 1 (1/2) (1/2) 0
      = pedestal_signal 0 1 0 1 1
        + ∑ k ∈ Finset.Ico 1 NPEAKS,
            pe_signal_noDouble k 0 1 0 1 1 1 1 (1/2) (1/2) 0
    ∧ ∑ k ∈ Finset.Ico 1 NPEAKS,
        (p0ap 1 (1/2) (1/2) k + pap1 1 (1/2) (1/2) k)
      < ∑ k ∈ Finset.Ico 1 NPEAKS, pct 1 (1/2) k :=
  ⟨(double_afterpulse_refinement 0 1 0 1 1 1 1 (1/2) (1/2) 0).1,
   (double_afterpulse_refinement 0 1 0 1 1 1 1 (1/2) (1/2) 0).2
     (by norm_num) (by norm_num) (by norm_num) one_pos⟩

/-- C9: before fitting, for each illumination `i`, the per-illumination
normalization default is set to the trapezoidal integral of that
illumination's histogram over the bin-center grid exactly when it was
unset (`None`); an already-set default is left unchanged. -/
theorem prepare_params_norm_defaults (n_illuminations : ℕ)
    (hist : ℕ → List ℝ) (between : List ℝ) (p0 : ℕ → Option ℝ) (i : ℕ)
    (hi : i < n_illuminations) :
    (p0 i = none →
        prepare_params n_illuminations hist between p0 i
          = some (trapz (hist i) between))
    ∧ ∀ v, p0 i = some v →
        prepare_params n_illuminations hist between p0 i = some v := by
  constructor
  · intro h
    unfold prepare_params
    rw [if_pos hi, h]
  · intro v h
    unfold prepare_params
    rw [if_pos hi, h]

/-- C9 witness: one illumination with histogram `[1, 3]` on bin centers
`[0, 2]` and an unset normalization default. -/
theorem prepare_params_norm_defaults_witness :
    ((none : Option ℝ) = none →
        prepare_params 1 (fun _ => [(1:ℝ), 3]) [0, 2] (fun _ => none) 0
          = some (trapz [(1:ℝ), 3] [0, 2]))
    ∧ ∀ v, (none : Option ℝ) = some v →
        prepare_params 1 (fun _ => [(1:ℝ), 3]) [0, 2] (fun _ => none) 0
          = some v :=
  prepare_params_norm_defaults 1 (fun _ => [(1:ℝ), 3]) [0, 2]
    (fun _ => none) 0 Nat.one_pos

/-- C10: every table and vector access made during one model evaluation is
in bounds: the `FACTORIAL` table has length 15 and is read at `j = 0..10`,
the `BINOM` table is `11 × 11` and is read at `(n, j)` with both in
`0..10`, and the weight vectors `p0ap`/`pap1` have length 11 and are read
at `k = 1..10`; each such access returns `some` of the model's value. -/
theorem lookup_accesses_in_bounds (lambda_ opct pap : ℝ) (j k : ℕ)
    (hj : j < NPEAKS) (hk1 : 1 ≤ k) (hk : k < NPEAKS) :
    FACTORIAL.length = 15
    ∧ j < FACTORIAL.length
    ∧ FACTORIAL[j]? = some (Nat.factorial j)
    ∧ BINOMtable.length = NPEAKS
    ∧ (∀ row ∈ BINOMtable, row.length = NPEAKS)
    ∧ BINOMtable[k]?.bind (fun row => row[j]?) = some (BINOM k j)
    ∧ (p0apVec lambda_ opct pap).length = NPEAKS
    ∧ (p0apVec lambda_ opct pap)[k]? = some (p0ap lambda_ opct pap k)
    ∧ (pap1Vec lambda_ opct pap)[k]? = some (pap1 lambda_ opct pap k) := by
  have hj15 : j < 15 := by
    have hj11 : j < 11 := hj
    omega
  have hk11 : k < 11 := hk
  have hj11 : j < 11 := hj
  refine ⟨by simp [FACTORIAL], ?_, ?_, by simp [BINOMtable], ?_, ?_, ?_, ?_,
    ?_⟩
  · simp only [FACTORIAL, List.length_map, List.length_range]
    exact hj15
  · simp [FACTORIAL, List.getElem?_map, List.getElem?_range, hj15]
  · intro row hrow
    simp only [BINOMtable, List.mem_map] at hrow
    obtain ⟨n, _, rfl⟩ := hrow
    simp [NPEAKS]
  · simp [BINOMtable, List.getElem?_map, List.getElem?_range, NPEAKS, hk11,
      hj11]
  · simp [p0apVec, NPEAKS]
  · simp [p0apVec, List.getElem?_map, List.getElem?_range, NPEAKS, hk11]
  · simp [pap1Vec, List.getElem?_map, List.getElem?_range, NPEAKS, hk11]

/-- C10 witness: the bounds facts at `j = 3`, `k = 2` and concrete
parameters `lambda_ = 1`, `opct = 1/2`, `pap = 1/2`. -/
theorem lookup_accesses_in_bounds_witness :
    FACTORIAL.length = 15
    ∧ 3 < FACTORIAL.length
    ∧ FACTORIAL[3]? = some (Nat.factorial 3)
    ∧ BINOMtable.length = NPEAKS
    ∧ (∀ row ∈ BINOMtable, row.length = NPEAKS)
    ∧ BINOMtable[2]?.bind (fun row => row[3]?) = some (BINOM 2 3)
    ∧ (p0apVec 1 (1/2) (1/2)).length = NPEAKS
    ∧ (p0apVec 1 (1/2) (1/2))[2]? = some (p0ap 1 (1/2) (1/2) 2)
    ∧ (pap1Vec 1 (1/2) (1/2))[2]? = some (pap1 1 (1/2) (1/2) 2) :=
  lookup_accesses_in_bounds 1 (1/2) (1/2) 3 2 (by norm_num [NPEAKS])
    (by norm_num) (by norm_num [NPEAKS])

end Gentile
